import Mathlib

/-!
Verification of the concurrent token cache
(`pkg/tsdb/azuremonitor/tokenprovider/token_cache.go`).

The Go code is embedded shallowly: pure helpers become Lean functions,
the mutation of cache entries becomes explicit state passing, and the
condition-variable based single-flight refresh protocol is modelled as a
small-step interleaving relation over thread phases. Machine time is
modelled as `Int` nanoseconds (Go `time.Time`/`time.Duration` granularity),
`time.Minute = 60e9` nanoseconds, and `t.After(u)` is strict `u < t`.
-/

namespace TokenProvider

/-- Go `time.Minute` in nanoseconds. -/
def minute : Int := 60 * 1000000000

/-- Go struct `AccessToken { Token string; ExpiresOn time.Time }`. -/
structure AccessToken where
  Token : String
  ExpiresOn : Int
deriving DecidableEq

/-- Outcome of a call to the external credential's `GetAccessToken`
(the Go call returns `(*AccessToken, error)` or may panic). -/
inductive AcquireOutcome where
  | ok (t : AccessToken)
  | err (e : String)
  | panicked
deriving DecidableEq

/-- The `TokenCredential` interface: `GetCacheKey`, `Init` and
`GetAccessToken` are modelled as deterministic oracles (the context
argument carries no information in the embedding). -/
structure TokenCredential where
  getCacheKey : String
  initResult : Option String
  getAccessToken : List String → AcquireOutcome

/-- Go `getKeyForScopes`: for more than one scope, sort a copy of the
list and join with single spaces; otherwise join the list as is. -/
def getKeyForScopes (scopes : List String) : String :=
  if 1 < scopes.length then
    String.intercalate " " (List.insertionSort (· ≤ ·) scopes)
  else
    String.intercalate " " scopes

/-- The freshness test from `scopesCacheEntry.getAccessToken`:
`c.accessToken != nil && c.accessToken.ExpiresOn.After(time.Now().Add(2*time.Minute))`. -/
def cachedTokenFresh (t : Option AccessToken) (now : Int) : Bool :=
  match t with
  | some tk => decide (now + 2 * minute < tk.ExpiresOn)
  | none => false

/-- Token string of an optional cached token (`accessToken.Token`;
only read on paths where the token is present). -/
def tokenString (t : Option AccessToken) : String :=
  match t with
  | some tk => tk.Token
  | none => ""

/-- Go struct `scopesCacheEntry` (the `sync.Cond` is represented by the
explicit wake-up bookkeeping of the models below). -/
structure ScopesCacheEntry where
  credential : TokenCredential
  scopes : List String
  refreshing : Bool
  accessToken : Option AccessToken

/-- A Go `(string, error)` return value, plus the two non-return ways a
sequential call can end: propagating a panic, or blocking forever on the
condition variable (which a single sequential caller would do if the
`refreshing` flag were stuck). -/
inductive GoReturn where
  | ret (value : String) (err : Option String)
  | panicked
  | blocked
deriving DecidableEq

/-- The deferred cleanup block of `refreshAccessToken`: clear
`refreshing`, store the local `accessToken` only when it is non-nil, and
broadcast. Returns the updated entry and whether the broadcast ran. -/
def refreshCleanup (accessToken : Option AccessToken) (c : ScopesCacheEntry) :
    ScopesCacheEntry × Bool :=
  let c1 : ScopesCacheEntry := { c with refreshing := false }
  let c2 : ScopesCacheEntry :=
    match accessToken with
    | some t => { c1 with accessToken := some t }
    | none => c1
  (c2, true)

/-- Result of one `refreshAccessToken` call: the Go return value (or
panic), the updated entry, and whether the deferred broadcast ran. -/
structure RefreshOut where
  result : AcquireOutcome
  entry : ScopesCacheEntry
  broadcasted : Bool

/-- Go `scopesCacheEntry.refreshAccessToken`: call the credential; on
error return it, otherwise keep the token; the deferred cleanup runs on
every exit path, including a panic inside the credential call. -/
def ScopesCacheEntry.refreshAccessToken (c : ScopesCacheEntry) : RefreshOut :=
  match c.credential.getAccessToken c.scopes with
  | AcquireOutcome.ok t =>
      let cleaned := refreshCleanup (some t) c
      { result := AcquireOutcome.ok t, entry := cleaned.1, broadcasted := cleaned.2 }
  | AcquireOutcome.err e =>
      let cleaned := refreshCleanup none c
      { result := AcquireOutcome.err e, entry := cleaned.1, broadcasted := cleaned.2 }
  | AcquireOutcome.panicked =>
      let cleaned := refreshCleanup none c
      { result := AcquireOutcome.panicked, entry := cleaned.1, broadcasted := cleaned.2 }

/-- Result of one sequential `scopesCacheEntry.getAccessToken` call:
return value, updated entry, and how many times the credential's
acquisition operation was invoked. -/
structure ScopesCallOut where
  result : GoReturn
  entry : ScopesCacheEntry
  acquireCalls : Nat

/-- Go `scopesCacheEntry.getAccessToken`, run by a single sequential
caller: serve a fresh cached token; otherwise claim the refresh if no
refresh is in progress; otherwise the caller would wait (`blocked`). -/
def ScopesCacheEntry.getAccessToken (c : ScopesCacheEntry) (now : Int) : ScopesCallOut :=
  if cachedTokenFresh c.accessToken now then
    { result := GoReturn.ret (tokenString c.accessToken) none, entry := c, acquireCalls := 0 }
  else if c.refreshing then
    { result := GoReturn.blocked, entry := c, acquireCalls := 0 }
  else
    let r := ScopesCacheEntry.refreshAccessToken { c with refreshing := true }
    match r.result with
    | AcquireOutcome.ok t =>
        { result := GoReturn.ret t.Token none, entry := r.entry, acquireCalls := 1 }
    | AcquireOutcome.err e =>
        { result := GoReturn.ret "" (some e), entry := r.entry, acquireCalls := 1 }
    | AcquireOutcome.panicked =>
        { result := GoReturn.panicked, entry := r.entry, acquireCalls := 1 }

/-- Go struct `credentialCacheEntry`; the inner `sync.Map` of scope
entries is an association list with most recent binding first. -/
structure CredentialCacheEntry where
  credential : TokenCredential
  credInit : Bool
  cache : List (String × ScopesCacheEntry)

/-- Result of `ensureInitialized`: returned error, updated entry, and
how many times `credential.Init` was invoked. -/
structure InitOut where
  err : Option String
  entry : CredentialCacheEntry
  initCalls : Nat

/-- Go `credentialCacheEntry.ensureInitialized` (double-checked locking;
sequentially both checks read the same flag): call `Init` only when the
flag is unset, set the flag only on success. -/
def CredentialCacheEntry.ensureInitialized (c : CredentialCacheEntry) : InitOut :=
  if c.credInit = false then
    match c.credential.initResult with
    | some e => { err := some e, entry := c, initCalls := 1 }
    | none => { err := none, entry := { c with credInit := true }, initCalls := 1 }
  else
    { err := none, entry := c, initCalls := 0 }

/-- Go `credentialCacheEntry.getEntryFor`: `LoadOrStore` on the scope
key; a missing key stores a fresh entry holding this entry's credential. -/
def CredentialCacheEntry.getEntryFor (c : CredentialCacheEntry) (scopes : List String) :
    ScopesCacheEntry × CredentialCacheEntry :=
  let key := getKeyForScopes scopes
  match c.cache.lookup key with
  | some entry => (entry, c)
  | none =>
      let entry : ScopesCacheEntry :=
        { credential := c.credential, scopes := scopes, refreshing := false, accessToken := none }
      (entry, { c with cache := (key, entry) :: c.cache })

/-- Result of `credentialCacheEntry.getAccessToken`. -/
structure CredCallOut where
  result : GoReturn
  entry : CredentialCacheEntry
  initCalls : Nat
  acquireCalls : Nat

/-- Go `credentialCacheEntry.getAccessToken`: ensure initialization,
then delegate to the scope entry; the updated scope entry is written
back under its key (in Go the map holds it by pointer). -/
def CredentialCacheEntry.getAccessToken (c : CredentialCacheEntry) (now : Int)
    (scopes : List String) : CredCallOut :=
  let i := c.ensureInitialized
  match i.err with
  | some e =>
      { result := GoReturn.ret "" (some e), entry := i.entry,
        initCalls := i.initCalls, acquireCalls := 0 }
  | none =>
      let se := CredentialCacheEntry.getEntryFor i.entry scopes
      let r := ScopesCacheEntry.getAccessToken se.1 now
      { result := r.result,
        entry := { se.2 with cache := (getKeyForScopes scopes, r.entry) :: se.2.cache },
        initCalls := i.initCalls, acquireCalls := r.acquireCalls }

/-- Go struct `tokenCacheImpl`; the outer `sync.Map` of credential
entries is an association list with most recent binding first. -/
structure TokenCacheImpl where
  cache : List (String × CredentialCacheEntry)

/-- Go `tokenCacheImpl.getEntryFor`: `LoadOrStore` on the credential's
cache key; an existing entry is returned unchanged, so the credential
object passed by the caller is ignored when the key is already present. -/
def TokenCacheImpl.getEntryFor (c : TokenCacheImpl) (credential : TokenCredential) :
    CredentialCacheEntry × TokenCacheImpl :=
  let key := credential.getCacheKey
  match c.cache.lookup key with
  | some entry => (entry, c)
  | none =>
      let entry : CredentialCacheEntry :=
        { credential := credential, credInit := false, cache := [] }
      (entry, { c with cache := (key, entry) :: c.cache })

/-- Result of the facade `GetAccessToken`. -/
structure FacadeOut where
  result : GoReturn
  cache : TokenCacheImpl
  initCalls : Nat
  acquireCalls : Nat

/-- Go `tokenCacheImpl.GetAccessToken`, the public facade: resolve the
credential entry, obtain the token, write the updated entry back. -/
def TokenCacheImpl.GetAccessToken (c : TokenCacheImpl) (credential : TokenCredential)
    (scopes : List String) (now : Int) : FacadeOut :=
  let ce := c.getEntryFor credential
  let r := CredentialCacheEntry.getAccessToken ce.1 now scopes
  { result := r.result,
    cache := { ce.2 with cache := (credential.getCacheKey, r.entry) :: ce.2.cache },
    initCalls := r.initCalls, acquireCalls := r.acquireCalls }

/-!
Concurrent model of `scopesCacheEntry.getAccessToken` and
`refreshAccessToken` for the single-flight property. Each of `n` threads
runs the Go protocol on one shared scope entry; the monitor lock makes
the body of the `for` loop atomic, so one loop pass is one step. The
model covers the episode the claim describes: the single acquisition
that happens succeeds and returns the token `tok`.
-/

/-- Where one caller is inside `scopesCacheEntry.getAccessToken`:
about to run a pass of the locked loop (`start`), parked in `cond.Wait`
(`waiting`), performing the acquisition as the refresher (`acquiring`),
or returned with a token (`done`). -/
inductive Phase where
  | start
  | waiting
  | acquiring
  | done (token : String)
deriving DecidableEq

/-- Effect of `cond.Broadcast` on one parked caller: a waiter re-enters
the locked loop; every other phase is unaffected. -/
def wake (p : Phase) : Phase :=
  match p with
  | Phase.waiting => Phase.start
  | q => q

/-- Shared state of one scope entry plus the control state of the `n`
callers, with bookkeeping: how many times the credential's acquisition
operation ran, and which threads ever set the `refreshing` flag. -/
structure SysState (n : Nat) where
  accessToken : Option AccessToken
  refreshing : Bool
  phases : Fin n → Phase
  acquireCount : Nat
  claimants : List (Fin n)

/-- One interleaving step of the protocol, for a fixed acquisition
result `tok` and a fixed evaluation time `now`:
* `hitFresh`: a caller enters the loop, finds a fresh cached token and
  returns it;
* claim (`setFlag`): a caller finds no fresh token and no refresh in
  progress, sets `refreshing` and becomes the refresher;
* `wait`: a caller finds no fresh token while a refresh is in progress
  and parks on the condition variable;
* `finishRefresh`: the refresher's acquisition returns `tok`; the
  deferred cleanup clears `refreshing`, stores the token, broadcasts
  (waking every parked caller), and the refresher returns `tok.Token`. -/
inductive Step (tok : AccessToken) (now : Int) {n : Nat} :
    SysState n → SysState n → Prop where
  | hitFresh (s : SysState n) (i : Fin n) (t : AccessToken)
      (hp : s.phases i = Phase.start)
      (ht : s.accessToken = some t)
      (hf : cachedTokenFresh s.accessToken now = true) :
      Step tok now s { s with phases := Function.update s.phases i (Phase.done t.Token) }
  | setFlag (s : SysState n) (i : Fin n)
      (hp : s.phases i = Phase.start)
      (hf : cachedTokenFresh s.accessToken now = false)
      (hr : s.refreshing = false) :
      Step tok now s
        { s with refreshing := true,
                 phases := Function.update s.phases i Phase.acquiring,
                 claimants := i :: s.claimants }
  | wait (s : SysState n) (i : Fin n)
      (hp : s.phases i = Phase.start)
      (hf : cachedTokenFresh s.accessToken now = false)
      (hr : s.refreshing = true) :
      Step tok now s { s with phases := Function.update s.phases i Phase.waiting }
  | finishRefresh (s : SysState n) (i : Fin n)
      (hp : s.phases i = Phase.acquiring) :
      Step tok now s
        { accessToken := some tok,
          refreshing := false,
          phases := fun j => if j = i then Phase.done tok.Token else wake (s.phases j),
          acquireCount := s.acquireCount + 1,
          claimants := s.claimants }

/-- Inductive invariant of the single-flight protocol, relative to the
initial state `init` and the acquisition result `tok`. -/
structure Inv (tok : AccessToken) {n : Nat} (init s : SysState n) : Prop where
  acq_refreshing : ∀ i, s.phases i = Phase.acquiring → s.refreshing = true
  acq_unique : ∀ i j, s.phases i = Phase.acquiring → s.phases j = Phase.acquiring → i = j
  acq_pending : (∃ i, s.phases i = Phase.acquiring) →
    s.acquireCount = 0 ∧ s.accessToken = init.accessToken
  count_zero : s.acquireCount = 0 → s.accessToken = init.accessToken
  count_one : s.acquireCount = 1 → s.accessToken = some tok
  count_le : s.acquireCount ≤ 1
  claim_len_acq : (∃ i, s.phases i = Phase.acquiring) →
    s.claimants.length = s.acquireCount + 1
  claim_len_idle : (∀ i, s.phases i ≠ Phase.acquiring) →
    s.claimants.length = s.acquireCount
  done_ok : ∀ i t, s.phases i = Phase.done t → t = tok.Token ∧ s.acquireCount = 1

/-!
Concrete instances used to witness the theorems below.
-/

/-- A token valid far in the future (expiry `10^13` ns ≈ 2.8 h). -/
def tokW : AccessToken := { Token := "T1", ExpiresOn := 10000000000000 }

/-- A credential whose acquisition succeeds with `tokW`. -/
def credOkW : TokenCredential :=
  { getCacheKey := "k", initResult := none,
    getAccessToken := fun _ => AcquireOutcome.ok { Token := "T2", ExpiresOn := 10000000000000 } }

/-- A credential whose acquisition fails. -/
def credErrW : TokenCredential :=
  { getCacheKey := "k", initResult := none,
    getAccessToken := fun _ => AcquireOutcome.err "boom" }

/-- A credential whose one-time initialization fails. -/
def credInitFailW : TokenCredential :=
  { getCacheKey := "k", initResult := some "initfail",
    getAccessToken := fun _ => AcquireOutcome.err "never" }

/-- A credential whose acquisition succeeds with an empty token string. -/
def credEmptyTokW : TokenCredential :=
  { getCacheKey := "k", initResult := none,
    getAccessToken := fun _ => AcquireOutcome.ok { Token := "", ExpiresOn := 10000000000000 } }

/-- A scope entry mid-refresh holding a previously cached token, whose
credential's acquisition fails. -/
def entryErrW : ScopesCacheEntry :=
  { credential := credErrW, scopes := ["s"], refreshing := true,
    accessToken := some { Token := "old", ExpiresOn := 5 } }

/-- A quiescent scope entry holding the fresh token `tokW`. -/
def entryFreshW : ScopesCacheEntry :=
  { credential := credErrW, scopes := ["s"], refreshing := false, accessToken := some tokW }

/-- A quiescent scope entry whose token expires one nanosecond before
the two-minute buffer (measured from time 0). -/
def entryBoundStaleW : ScopesCacheEntry :=
  { credential := credOkW, scopes := ["s"], refreshing := false,
    accessToken := some { Token := "T1", ExpiresOn := 119999999999 } }

/-- A quiescent scope entry whose token expires one nanosecond after
the two-minute buffer (measured from time 0). -/
def entryBoundFreshW : ScopesCacheEntry :=
  { credential := credOkW, scopes := ["s"], refreshing := false,
    accessToken := some { Token := "T1", ExpiresOn := 120000000001 } }

/-- An uninitialized credential entry whose initialization fails. -/
def credEntryFailW : CredentialCacheEntry :=
  { credential := credInitFailW, credInit := false, cache := [] }

/-- An empty token cache. -/
def emptyCacheW : TokenCacheImpl := { cache := [] }

/-- A credential entry registered for key `"k"`, already initialized,
holding a working credential. -/
def credEntryAW : CredentialCacheEntry :=
  { credential := credOkW, credInit := true, cache := [] }

/-- A cache in which key `"k"` is already bound to `credEntryAW`. -/
def cacheWithAW : TokenCacheImpl := { cache := [("k", credEntryAW)] }

/-- Initial state of the two-caller single-flight run: no cached token,
no refresh in progress, both callers about to enter the loop. -/
def s0W : SysState 2 :=
  { accessToken := none, refreshing := false, phases := fun _ => Phase.start,
    acquireCount := 0, claimants := [] }

/-- After caller 0 claims the refresh. -/
def s1W : SysState 2 :=
  { s0W with refreshing := true,
             phases := Function.update s0W.phases 0 Phase.acquiring,
             claimants := 0 :: s0W.claimants }

/-- After caller 1 parks on the condition variable. -/
def s2W : SysState 2 :=
  { s1W with phases := Function.update s1W.phases 1 Phase.waiting }

/-- After caller 0's acquisition returns `tokW` and the cleanup runs. -/
def s3W : SysState 2 :=
  { accessToken := some tokW,
    refreshing := false,
    phases := fun j => if j = 0 then Phase.done tokW.Token else wake (s2W.phases j),
    acquireCount := s2W.acquireCount + 1,
    claimants := s2W.claimants }

/-- After the woken caller 1 returns the cached fresh token. -/
def s4W : SysState 2 :=
  { s3W with phases := Function.update s3W.phases 1 (Phase.done tokW.Token) }

/-!
Theorems.
-/

/-- C3: on every exit path of `refreshAccessToken` — success, error, or
a panic raised by the credential's acquisition call — the deferred
cleanup clears the entry's `refreshing` flag and broadcasts on the
entry's condition variable, so no failure mode leaves the flag set. -/
theorem refreshAccessToken_always_cleans (c : ScopesCacheEntry) :
    (ScopesCacheEntry.refreshAccessToken c).entry.refreshing = false ∧
    (ScopesCacheEntry.refreshAccessToken c).broadcasted = true := by
  unfold ScopesCacheEntry.refreshAccessToken
  cases c.credential.getAccessToken c.scopes <;> simp [refreshCleanup]

/-- C2: a failed (or panicking) refresh attempt leaves the entry's
cached token field exactly as it was and returns the error to the
refreshing caller; a new token is stored exactly when the acquisition
succeeds. -/
theorem refreshAccessToken_failure_preserves_token (c : ScopesCacheEntry) :
    (∀ e, c.credential.getAccessToken c.scopes = AcquireOutcome.err e →
      (ScopesCacheEntry.refreshAccessToken c).entry.accessToken = c.accessToken ∧
      (ScopesCacheEntry.refreshAccessToken c).result = AcquireOutcome.err e) ∧
    (c.credential.getAccessToken c.scopes = AcquireOutcome.panicked →
      (ScopesCacheEntry.refreshAccessToken c).entry.accessToken = c.accessToken) ∧
    (∀ t, c.credential.getAccessToken c.scopes = AcquireOutcome.ok t →
      (ScopesCacheEntry.refreshAccessToken c).entry.accessToken = some t) := by
  refine ⟨fun e h => ?_, fun h => ?_, fun t h => ?_⟩ <;>
    (unfold ScopesCacheEntry.refreshAccessToken; rw [h]; simp [refreshCleanup])

/-- C2 witness: a concrete failed refresh on an entry holding an older
token keeps that token and reports the error. -/
theorem refreshAccessToken_failure_preserves_token_witness :
    (ScopesCacheEntry.refreshAccessToken entryErrW).entry.accessToken =
      some { Token := "old", ExpiresOn := 5 } ∧
    (ScopesCacheEntry.refreshAccessToken entryErrW).result = AcquireOutcome.err "boom" :=
  (refreshAccessToken_failure_preserves_token entryErrW).1 "boom" rfl

/-- C4: a call made while the entry holds a cached token whose expiry is
more than the two-minute buffer in the future returns exactly that token
without invoking the acquisition operation, and leaves the entry
unchanged; two consecutive such calls perform no acquisition at all (in
particular at most one in total). -/
theorem cached_token_served_without_acquisition (c : ScopesCacheEntry) (t : AccessToken)
    (now1 now2 : Int) (h : c.accessToken = some t)
    (h1 : now1 + 2 * minute < t.ExpiresOn) (h2 : now2 + 2 * minute < t.ExpiresOn) :
    (ScopesCacheEntry.getAccessToken c now1).result = GoReturn.ret t.Token none ∧
    (ScopesCacheEntry.getAccessToken c now1).entry = c ∧
    (ScopesCacheEntry.getAccessToken c now1).acquireCalls = 0 ∧
    (ScopesCacheEntry.getAccessToken (ScopesCacheEntry.getAccessToken c now1).entry now2).result
      = GoReturn.ret t.Token none ∧
    (ScopesCacheEntry.getAccessToken c now1).acquireCalls +
      (ScopesCacheEntry.getAccessToken (ScopesCacheEntry.getAccessToken c now1).entry
        now2).acquireCalls ≤ 1 := by
  have hf1 : cachedTokenFresh c.accessToken now1 = true := by
    rw [h]; simpa [cachedTokenFresh] using h1
  have hf2 : cachedTokenFresh c.accessToken now2 = true := by
    rw [h]; simpa [cachedTokenFresh] using h2
  have e1 : ScopesCacheEntry.getAccessToken c now1 =
      { result := GoReturn.ret (tokenString c.accessToken) none, entry := c, acquireCalls := 0 } := by
    unfold ScopesCacheEntry.getAccessToken
    rw [hf1]; simp
  have e2 : ScopesCacheEntry.getAccessToken c now2 =
      { result := GoReturn.ret (tokenString c.accessToken) none, entry := c, acquireCalls := 0 } := by
    unfold ScopesCacheEntry.getAccessToken
    rw [hf2]; simp
  rw [e1]; simp [e2, h, tokenString]

/-- C4 witness: two reads of a concretely fresh cached token at times
0 and 60 s return it unchanged with zero acquisitions. -/
theorem cached_token_served_without_acquisition_witness :
    (ScopesCacheEntry.getAccessToken entryFreshW 0).result = GoReturn.ret "T1" none ∧
    (ScopesCacheEntry.getAccessToken entryFreshW 0).entry = entryFreshW ∧
    (ScopesCacheEntry.getAccessToken entryFreshW 0).acquireCalls = 0 ∧
    (ScopesCacheEntry.getAccessToken
      (ScopesCacheEntry.getAccessToken entryFreshW 0).entry 60000000000).result
      = GoReturn.ret "T1" none ∧
    (ScopesCacheEntry.getAccessToken entryFreshW 0).acquireCalls +
      (ScopesCacheEntry.getAccessToken
        (ScopesCacheEntry.getAccessToken entryFreshW 0).entry 60000000000).acquireCalls ≤ 1 := by
  have h := cached_token_served_without_acquisition entryFreshW tokW 0 60000000000 rfl
    (by decide) (by decide)
  simpa [tokW] using h

/-- C5: at the freshness boundary, a cached token expiring exactly one
time unit less than the two-minute buffer ahead triggers a refresh (one
acquisition), while one expiring exactly one unit more than the buffer
ahead is served from the cache with no acquisition. -/
theorem freshness_boundary (c : ScopesCacheEntry) (t : AccessToken) (now : Int)
    (hc : c.accessToken = some t) (hr : c.refreshing = false) :
    (t.ExpiresOn = now + 2 * minute - 1 →
      (ScopesCacheEntry.getAccessToken c now).acquireCalls = 1) ∧
    (t.ExpiresOn = now + 2 * minute + 1 →
      (ScopesCacheEntry.getAccessToken c now).result = GoReturn.ret t.Token none ∧
      (ScopesCacheEntry.getAccessToken c now).acquireCalls = 0) := by
  constructor
  · intro hexp
    have hf : cachedTokenFresh c.accessToken now = false := by
      rw [hc]; simp [cachedTokenFresh, hexp]
    unfold ScopesCacheEntry.getAccessToken
    rw [hf, hr]
    simp only [Bool.false_eq_true, if_false]
    unfold ScopesCacheEntry.refreshAccessToken
    cases ({ c with refreshing := true } :
        ScopesCacheEntry).credential.getAccessToken { c with refreshing := true }.scopes <;>
      simp [refreshCleanup]
  · intro hexp
    have hf : cachedTokenFresh c.accessToken now = true := by
      rw [hc]; simp [cachedTokenFresh, hexp]
    unfold ScopesCacheEntry.getAccessToken
    rw [hf]
    simp [tokenString, hc]

/-- C5 witness: concrete boundary entries at time 0 — expiry
`2 min − 1 ns` refreshes, expiry `2 min + 1 ns` is served cached. -/
theorem freshness_boundary_witness :
    (ScopesCacheEntry.getAccessToken entryBoundStaleW 0).acquireCalls = 1 ∧
    ((ScopesCacheEntry.getAccessToken entryBoundFreshW 0).result = GoReturn.ret "T1" none ∧
      (ScopesCacheEntry.getAccessToken entryBoundFreshW 0).acquireCalls = 0) := by
  constructor
  · exact (freshness_boundary entryBoundStaleW { Token := "T1", ExpiresOn := 119999999999 } 0
      rfl rfl).1 (by decide)
  · exact (freshness_boundary entryBoundFreshW { Token := "T1", ExpiresOn := 120000000001 } 0
      rfl rfl).2 (by decide)

/-- C7: a failed `Init` leaves the initialization flag unset and the
entry unchanged, so the next call invokes `Init` again; a successful
`Init` sets the flag, and once the flag is set `ensureInitialized` is a
no-op that never invokes `Init` again. -/
theorem ensureInitialized_spec (c : CredentialCacheEntry) :
    (∀ e, c.credInit = false → c.credential.initResult = some e →
      (CredentialCacheEntry.ensureInitialized c).err = some e ∧
      (CredentialCacheEntry.ensureInitialized c).entry = c ∧
      (CredentialCacheEntry.ensureInitialized c).initCalls = 1 ∧
      (CredentialCacheEntry.ensureInitialized
        (CredentialCacheEntry.ensureInitialized c).entry).initCalls = 1) ∧
    (c.credInit = false → c.credential.initResult = none →
      (CredentialCacheEntry.ensureInitialized c).err = none ∧
      (CredentialCacheEntry.ensureInitialized c).entry.credInit = true ∧
      (CredentialCacheEntry.ensureInitialized c).initCalls = 1) ∧
    (c.credInit = true →
      CredentialCacheEntry.ensureInitialized c =
        { err := none, entry := c, initCalls := 0 }) := by
  refine ⟨fun e h0 h1 => ?_, fun h0 h1 => ?_, fun h0 => ?_⟩
  · have e1 : CredentialCacheEntry.ensureInitialized c =
        { err := some e, entry := c, initCalls := 1 } := by
      unfold CredentialCacheEntry.ensureInitialized
      rw [h0, h1]; simp
    rw [e1]
    simp [e1]
  · unfold CredentialCacheEntry.ensureInitialized
    rw [h0, h1]; simp
  · unfold CredentialCacheEntry.ensureInitialized
    rw [h0]; simp

/-- C7 witness: a concrete entry whose `Init` fails reports the error,
keeps the flag unset, and retries `Init` on the next call. -/
theorem ensureInitialized_spec_witness :
    (CredentialCacheEntry.ensureInitialized credEntryFailW).err = some "initfail" ∧
    (CredentialCacheEntry.ensureInitialized credEntryFailW).entry = credEntryFailW ∧
    (CredentialCacheEntry.ensureInitialized credEntryFailW).initCalls = 1 ∧
    (CredentialCacheEntry.ensureInitialized
      (CredentialCacheEntry.ensureInitialized credEntryFailW).entry).initCalls = 1 :=
  (ensureInitialized_spec credEntryFailW).1 "initfail" rfl rfl

/-- C6: `getKeyForScopes` maps a list of more than one scope to a
space-joined sorted permutation of it, a single scope to its own value,
and no scopes to the empty string; permuted scope lists always yield the
same key. -/
theorem getKeyForScopes_spec (scopes : List String) :
    (1 < scopes.length → ∃ l, scopes.Perm l ∧ l.Sorted (· ≤ ·) ∧
      getKeyForScopes scopes = String.intercalate " " l) ∧
    (∀ s, scopes = [s] → getKeyForScopes scopes = s) ∧
    (scopes = [] → getKeyForScopes scopes = "") ∧
    (∀ scopes2, scopes.Perm scopes2 → getKeyForScopes scopes = getKeyForScopes scopes2) := by
  refine ⟨fun hlen => ?_, fun s hs => ?_, fun hs => ?_, fun scopes2 hp => ?_⟩
  · refine ⟨List.insertionSort (· ≤ ·) scopes, (List.perm_insertionSort _ _).symm,
      List.sorted_insertionSort _ _, ?_⟩
    unfold getKeyForScopes
    rw [if_pos hlen]
  · subst hs; rfl
  · subst hs; rfl
  · cases scopes with
    | nil =>
      rw [← hp.nil_eq]
    | cons a tl =>
      cases tl with
      | nil =>
        rw [← List.singleton_perm.mp hp]
      | cons b tl2 =>
        have hlen : 1 < (a :: b :: tl2).length := by simp
        have hlen2 : 1 < scopes2.length := by rw [← hp.length_eq]; simp
        unfold getKeyForScopes
        rw [if_pos hlen, if_pos hlen2]
        congr 1
        exact List.eq_of_perm_of_sorted
          ((List.perm_insertionSort _ _).trans
            (hp.trans (List.perm_insertionSort _ _).symm))
          (List.sorted_insertionSort _ _) (List.sorted_insertionSort _ _)

/-- C6 witness: the concrete permutations `["b","a"]` and `["a","b"]`
produce the same key. -/
theorem getKeyForScopes_spec_witness :
    getKeyForScopes ["b", "a"] = getKeyForScopes ["a", "b"] :=
  (getKeyForScopes_spec ["b", "a"]).2.2.2 ["a", "b"] (by decide)

/-- C9: scope-key normalization is not injective across genuinely
different scope sets: `["a b"]` and `["a","b"]` are not permutations of
one another, yet they receive the same key and hence share one scope
entry. -/
theorem getKeyForScopes_not_injective :
    getKeyForScopes ["a b"] = getKeyForScopes ["a", "b"] ∧
    ¬ List.Perm ["a b"] ["a", "b"] := by
  constructor
  · have hab : ("a" : String) ≤ "b" := by rw [String.le_iff_toList_le]; decide
    unfold getKeyForScopes
    simp [List.insertionSort, List.orderedInsert, hab]
    decide
  · intro hp
    simpa using hp.length_eq

/-- C10: once a credential identity key is registered, the stored entry
— holding the first-registered credential object — is used for all later
calls: `getEntryFor` returns it unchanged, and the facade's behavior is
identical for any two credential objects reporting that key, so a later
caller's own credential object is ignored. -/
theorem first_registered_credential_wins (c : TokenCacheImpl) (cred2 cred3 : TokenCredential)
    (entry : CredentialCacheEntry)
    (h : c.cache.lookup cred2.getCacheKey = some entry)
    (hk : cred3.getCacheKey = cred2.getCacheKey) :
    TokenCacheImpl.getEntryFor c cred2 = (entry, c) ∧
    ∀ scopes now, TokenCacheImpl.GetAccessToken c cred2 scopes now =
      TokenCacheImpl.GetAccessToken c cred3 scopes now := by
  have h3 : c.cache.lookup cred3.getCacheKey = some entry := by rw [hk]; exact h
  have e2 : TokenCacheImpl.getEntryFor c cred2 = (entry, c) := by
    simp only [TokenCacheImpl.getEntryFor]; rw [h]
  have e3 : TokenCacheImpl.getEntryFor c cred3 = (entry, c) := by
    simp only [TokenCacheImpl.getEntryFor]; rw [h3]
  refine ⟨e2, fun scopes now => ?_⟩
  simp only [TokenCacheImpl.GetAccessToken, e2, e3, hk]

/-- C10 witness: with `credEntryAW` (built from `credOkW`) registered
under key `"k"`, calls passing the different credentials `credInitFailW`
and `credErrW` — both reporting key `"k"` — behave identically, and the
stored entry is returned unchanged. -/
theorem first_registered_credential_wins_witness :
    TokenCacheImpl.getEntryFor cacheWithAW credInitFailW = (credEntryAW, cacheWithAW) ∧
    TokenCacheImpl.GetAccessToken cacheWithAW credInitFailW ["s"] 0 =
      TokenCacheImpl.GetAccessToken cacheWithAW credErrW ["s"] 0 := by
  have h := first_registered_credential_wins cacheWithAW credInitFailW credErrW credEntryAW
    rfl rfl
  exact ⟨h.1, h.2 ["s"] 0⟩

/-- C8 counterexample: a successful facade call can
return the empty string, because the code never checks the token string
produced by the credential — so "on success it returns a non-empty token
string" fails on the code. -/
theorem facade_success_can_return_empty_token :
    ¬ (∀ v e, (TokenCacheImpl.GetAccessToken emptyCacheW credEmptyTokW ["s"] 0).result
        = GoReturn.ret v e → e = none → v ≠ "") := by
  intro h
  exact h "" none rfl rfl rfl

/-- C8 (amended): on a first call for a credential key, an
initialization failure or a refresh failure makes the facade return the
empty string together with the error, with the written-back scope entry
left with its `refreshing` flag clear and no token stored (the cache
stays usable); a successful acquisition makes the facade return the
acquired token string with no error — which is non-empty exactly when
the credential produced a non-empty token string. -/
theorem facade_error_returns_empty_string (c : TokenCacheImpl) (cred : TokenCredential)
    (scopes : List String) (now : Int)
    (hnew : c.cache.lookup cred.getCacheKey = none) :
    (∀ e, cred.initResult = some e →
      (TokenCacheImpl.GetAccessToken c cred scopes now).result = GoReturn.ret "" (some e) ∧
      (TokenCacheImpl.GetAccessToken c cred scopes now).acquireCalls = 0) ∧
    (∀ m, cred.initResult = none → cred.getAccessToken scopes = AcquireOutcome.err m →
      (TokenCacheImpl.GetAccessToken c cred scopes now).result = GoReturn.ret "" (some m) ∧
      ∃ ce se,
        (TokenCacheImpl.GetAccessToken c cred scopes now).cache.cache.lookup cred.getCacheKey
          = some ce ∧
        ce.cache.lookup (getKeyForScopes scopes) = some se ∧
        se.refreshing = false ∧ se.accessToken = none) ∧
    (∀ t, cred.initResult = none → cred.getAccessToken scopes = AcquireOutcome.ok t →
      (TokenCacheImpl.GetAccessToken c cred scopes now).result = GoReturn.ret t.Token none ∧
      (t.Token ≠ "" → (TokenCacheImpl.GetAccessToken c cred scopes now).result
        ≠ GoReturn.ret "" none)) := by
  have egf : TokenCacheImpl.getEntryFor c cred =
      (⟨cred, false, []⟩,
        ⟨(cred.getCacheKey, (⟨cred, false, []⟩ : CredentialCacheEntry)) :: c.cache⟩) := by
    simp only [TokenCacheImpl.getEntryFor]; rw [hnew]
  refine ⟨fun e h1 => ?_, fun m h1 h2 => ?_, fun t h1 h2 => ?_⟩
  · have einit : CredentialCacheEntry.ensureInitialized ⟨cred, false, []⟩ =
        { err := some e, entry := ⟨cred, false, []⟩, initCalls := 1 } := by
      simp [CredentialCacheEntry.ensureInitialized, h1]
    simp [TokenCacheImpl.GetAccessToken, egf, CredentialCacheEntry.getAccessToken, einit]
  · have einit : CredentialCacheEntry.ensureInitialized ⟨cred, false, []⟩ =
        { err := none, entry := ⟨cred, true, []⟩, initCalls := 1 } := by
      simp [CredentialCacheEntry.ensureInitialized, h1]
    have egf2 : CredentialCacheEntry.getEntryFor ⟨cred, true, []⟩ scopes =
        (⟨cred, scopes, false, none⟩,
          ⟨cred, true, [(getKeyForScopes scopes, ⟨cred, scopes, false, none⟩)]⟩) := by
      simp [CredentialCacheEntry.getEntryFor]
    have erefresh : ScopesCacheEntry.refreshAccessToken ⟨cred, scopes, true, none⟩ =
        { result := AcquireOutcome.err m, entry := ⟨cred, scopes, false, none⟩,
          broadcasted := true } := by
      simp [ScopesCacheEntry.refreshAccessToken, h2, refreshCleanup]
    have escopes : ScopesCacheEntry.getAccessToken ⟨cred, scopes, false, none⟩ now =
        { result := GoReturn.ret "" (some m), entry := ⟨cred, scopes, false, none⟩,
          acquireCalls := 1 } := by
      simp [ScopesCacheEntry.getAccessToken, cachedTokenFresh, erefresh]
    have efacade : TokenCacheImpl.GetAccessToken c cred scopes now =
        { result := GoReturn.ret "" (some m),
          cache := ⟨(cred.getCacheKey,
              (⟨cred, true, [(getKeyForScopes scopes, ⟨cred, scopes, false, none⟩),
                (getKeyForScopes scopes, ⟨cred, scopes, false, none⟩)]⟩ :
                CredentialCacheEntry)) ::
            (cred.getCacheKey, (⟨cred, false, []⟩ : CredentialCacheEntry)) :: c.cache⟩,
          initCalls := 1, acquireCalls := 1 } := by
      simp [TokenCacheImpl.GetAccessToken, egf, CredentialCacheEntry.getAccessToken,
        einit, egf2, escopes]
    rw [efacade]
    refine ⟨rfl, ⟨cred, true, [(getKeyForScopes scopes, ⟨cred, scopes, false, none⟩),
      (getKeyForScopes scopes, ⟨cred, scopes, false, none⟩)]⟩,
      ⟨cred, scopes, false, none⟩, ?_, ?_, rfl, rfl⟩
    · simp [List.lookup]
    · simp [List.lookup]
  · have einit : CredentialCacheEntry.ensureInitialized ⟨cred, false, []⟩ =
        { err := none, entry := ⟨cred, true, []⟩, initCalls := 1 } := by
      simp [CredentialCacheEntry.ensureInitialized, h1]
    have egf2 : CredentialCacheEntry.getEntryFor ⟨cred, true, []⟩ scopes =
        (⟨cred, scopes, false, none⟩,
          ⟨cred, true, [(getKeyForScopes scopes, ⟨cred, scopes, false, none⟩)]⟩) := by
      simp [CredentialCacheEntry.getEntryFor]
    have erefresh : ScopesCacheEntry.refreshAccessToken ⟨cred, scopes, true, none⟩ =
        { result := AcquireOutcome.ok t, entry := ⟨cred, scopes, false, some t⟩,
          broadcasted := true } := by
      simp [ScopesCacheEntry.refreshAccessToken, h2, refreshCleanup]
    have escopes : ScopesCacheEntry.getAccessToken ⟨cred, scopes, false, none⟩ now =
        { result := GoReturn.ret t.Token none, entry := ⟨cred, scopes, false, some t⟩,
          acquireCalls := 1 } := by
      simp [ScopesCacheEntry.getAccessToken, cachedTokenFresh, erefresh]
    have efacade : (TokenCacheImpl.GetAccessToken c cred scopes now).result =
        GoReturn.ret t.Token none := by
      simp [TokenCacheImpl.GetAccessToken, egf, CredentialCacheEntry.getAccessToken,
        einit, egf2, escopes]
    refine ⟨efacade, fun h3 h4 => h3 ?_⟩
    rw [efacade] at h4
    exact (GoReturn.ret.injEq _ _ _ _).mp h4 |>.1

/-- C8 witness: a concrete first call whose refresh fails returns the
empty string with the error, and the written-back entry is clean. -/
theorem facade_error_returns_empty_string_witness :
    (TokenCacheImpl.GetAccessToken emptyCacheW credErrW ["s"] 0).result
      = GoReturn.ret "" (some "boom") ∧
    ∃ ce se,
      (TokenCacheImpl.GetAccessToken emptyCacheW credErrW ["s"] 0).cache.cache.lookup "k"
        = some ce ∧
      ce.cache.lookup (getKeyForScopes ["s"]) = some se ∧
      se.refreshing = false ∧ se.accessToken = none :=
  (facade_error_returns_empty_string emptyCacheW credErrW ["s"] 0 rfl).2.1 "boom" rfl rfl

theorem wake_eq_acquiring {p : Phase} (h : wake p = Phase.acquiring) :
    p = Phase.acquiring := by
  cases p <;> simp_all [wake]

theorem wake_eq_done {p : Phase} {t : String} (h : wake p = Phase.done t) :
    p = Phase.done t := by
  cases p <;> simp_all [wake]

/-- The invariant holds in any all-`start` initial state. -/
theorem inv_init {n : Nat} {tok : AccessToken} {init : SysState n}
    (hstart : ∀ i, init.phases i = Phase.start)
    (hcount : init.acquireCount = 0) (hclaim : init.claimants = []) :
    Inv tok init init := by
  refine ⟨?_, ?_, ?_, ?_, ?_, ?_, ?_, ?_, ?_⟩
  · intro i h; rw [hstart i] at h; cases h
  · intro i j hi _; rw [hstart i] at hi; cases hi
  · rintro ⟨i, hi⟩; rw [hstart i] at hi; cases hi
  · intro _; rfl
  · intro h1; rw [hcount] at h1; exact absurd h1 (by decide)
  · omega
  · rintro ⟨i, hi⟩; rw [hstart i] at hi; cases hi
  · intro _; simp [hclaim, hcount]
  · intro i t h; rw [hstart i] at h; cases h

/-- Every protocol step preserves the invariant, provided the initial
token is not fresh and the acquired token is. -/
theorem inv_preserved {n : Nat} {tok : AccessToken} {now : Int} {init s s2 : SysState n}
    (hstale : cachedTokenFresh init.accessToken now = false)
    (hfresh : cachedTokenFresh (some tok) now = true)
    (hst : Step tok now s s2) (hinv : Inv tok init s) : Inv tok init s2 := by
  cases hst with
  | hitFresh i t hp ht hf =>
    have hcnt : s.acquireCount ≠ 0 := by
      intro h0
      rw [hinv.count_zero h0, hstale] at hf
      cases hf
    have hone : s.acquireCount = 1 := by have := hinv.count_le; omega
    have htok2 : s.accessToken = some tok := hinv.count_one hone
    have ttok : t = tok := by rw [htok2] at ht; exact (Option.some_inj.mp ht).symm
    refine ⟨?_, ?_, ?_, ?_, ?_, ?_, ?_, ?_, ?_⟩ <;> dsimp only
    · intro j hj
      rcases eq_or_ne j i with rfl | hne
      · rw [Function.update_same] at hj; cases hj
      · rw [Function.update_noteq hne] at hj; exact hinv.acq_refreshing j hj
    · intro j k hj hk
      rcases eq_or_ne j i with rfl | hnej
      · rw [Function.update_same] at hj; cases hj
      · rcases eq_or_ne k i with rfl | hnek
        · rw [Function.update_same] at hk; cases hk
        · rw [Function.update_noteq hnej] at hj
          rw [Function.update_noteq hnek] at hk
          exact hinv.acq_unique j k hj hk
    · rintro ⟨j, hj⟩
      rcases eq_or_ne j i with rfl | hne
      · rw [Function.update_same] at hj; cases hj
      · rw [Function.update_noteq hne] at hj
        exact hinv.acq_pending ⟨j, hj⟩
    · exact hinv.count_zero
    · exact hinv.count_one
    · exact hinv.count_le
    · rintro ⟨j, hj⟩
      rcases eq_or_ne j i with rfl | hne
      · rw [Function.update_same] at hj; cases hj
      · rw [Function.update_noteq hne] at hj
        exact hinv.claim_len_acq ⟨j, hj⟩
    · intro hall
      refine hinv.claim_len_idle fun j hj => ?_
      rcases eq_or_ne j i with rfl | hne
      · rw [hp] at hj; cases hj
      · exact hall j (by rwa [Function.update_noteq hne])
    · intro j t2 hj
      rcases eq_or_ne j i with rfl | hne
      · rw [Function.update_same] at hj
        cases hj
        exact ⟨by rw [ttok], hone⟩
      · rw [Function.update_noteq hne] at hj
        exact hinv.done_ok j t2 hj
  | setFlag i hp hf hr =>
    have hnone : ∀ j, s.phases j ≠ Phase.acquiring := by
      intro j hj
      rw [hinv.acq_refreshing j hj] at hr
      cases hr
    have hc0 : s.acquireCount = 0 := by
      have hne1 : s.acquireCount ≠ 1 := by
        intro h1
        rw [hinv.count_one h1, hfresh] at hf
        cases hf
      have := hinv.count_le
      omega
    refine ⟨?_, ?_, ?_, ?_, ?_, ?_, ?_, ?_, ?_⟩ <;> dsimp only
    · intro j _; rfl
    · have key : ∀ x, Function.update s.phases i Phase.acquiring x = Phase.acquiring →
          x = i := by
        intro x hx
        by_contra hne
        rw [Function.update_noteq hne] at hx
        exact hnone x hx
      intro j k hj hk
      rw [key j hj, key k hk]
    · intro _; exact ⟨hc0, hinv.count_zero hc0⟩
    · exact hinv.count_zero
    · exact hinv.count_one
    · exact hinv.count_le
    · intro _
      show (i :: s.claimants).length = s.acquireCount + 1
      rw [List.length_cons, hinv.claim_len_idle hnone]
    · intro hall
      exact absurd (Function.update_same i Phase.acquiring s.phases) (hall i)
    · intro j t2 hj
      rcases eq_or_ne j i with rfl | hne
      · rw [Function.update_same] at hj; cases hj
      · rw [Function.update_noteq hne] at hj
        exact hinv.done_ok j t2 hj
  | wait i hp hf hr =>
    refine ⟨?_, ?_, ?_, ?_, ?_, ?_, ?_, ?_, ?_⟩ <;> dsimp only
    · intro j hj
      rcases eq_or_ne j i with rfl | hne
      · rw [Function.update_same] at hj; cases hj
      · rw [Function.update_noteq hne] at hj; exact hinv.acq_refreshing j hj
    · intro j k hj hk
      rcases eq_or_ne j i with rfl | hnej
      · rw [Function.update_same] at hj; cases hj
      · rcases eq_or_ne k i with rfl | hnek
        · rw [Function.update_same] at hk; cases hk
        · rw [Function.update_noteq hnej] at hj
          rw [Function.update_noteq hnek] at hk
          exact hinv.acq_unique j k hj hk
    · rintro ⟨j, hj⟩
      rcases eq_or_ne j i with rfl | hne
      · rw [Function.update_same] at hj; cases hj
      · rw [Function.update_noteq hne] at hj
        exact hinv.acq_pending ⟨j, hj⟩
    · exact hinv.count_zero
    · exact hinv.count_one
    · exact hinv.count_le
    · rintro ⟨j, hj⟩
      rcases eq_or_ne j i with rfl | hne
      · rw [Function.update_same] at hj; cases hj
      · rw [Function.update_noteq hne] at hj
        exact hinv.claim_len_acq ⟨j, hj⟩
    · intro hall
      refine hinv.claim_len_idle fun j hj => ?_
      rcases eq_or_ne j i with rfl | hne
      · rw [hp] at hj; cases hj
      · exact hall j (by rwa [Function.update_noteq hne])
    · intro j t2 hj
      rcases eq_or_ne j i with rfl | hne
      · rw [Function.update_same] at hj; cases hj
      · rw [Function.update_noteq hne] at hj
        exact hinv.done_ok j t2 hj
  | finishRefresh i hp =>
    obtain ⟨hc0, -⟩ := hinv.acq_pending ⟨i, hp⟩
    have hnoacq2 : ∀ j, (if j = i then Phase.done tok.Token else wake (s.phases j))
        ≠ Phase.acquiring := by
      intro j hj
      rcases eq_or_ne j i with rfl | hne
      · rw [if_pos rfl] at hj; cases hj
      · rw [if_neg hne] at hj
        exact hne (hinv.acq_unique j i (wake_eq_acquiring hj) hp)
    refine ⟨?_, ?_, ?_, ?_, ?_, ?_, ?_, ?_, ?_⟩ <;> dsimp only
    · intro j hj; exact absurd hj (hnoacq2 j)
    · intro j k hj _; exact absurd hj (hnoacq2 j)
    · rintro ⟨j, hj⟩; exact absurd hj (hnoacq2 j)
    · intro h0
      have h02 : s.acquireCount + 1 = 0 := h0
      exact absurd h02 (by omega)
    · intro _; rfl
    · show s.acquireCount + 1 ≤ 1
      omega
    · rintro ⟨j, hj⟩; exact absurd hj (hnoacq2 j)
    · intro _
      show s.claimants.length = s.acquireCount + 1
      exact hinv.claim_len_acq ⟨i, hp⟩
    · intro j t2 hj
      rcases eq_or_ne j i with rfl | hne
      · rw [if_pos rfl] at hj
        cases hj
        exact ⟨rfl, by omega⟩
      · rw [if_neg hne] at hj
        have hold := hinv.done_ok j t2 (wake_eq_done hj)
        exact absurd hold.2 (by omega)

/-- The invariant holds in every state reachable from an all-`start`
initial state. -/
theorem inv_reachable {n : Nat} {tok : AccessToken} {now : Int} {init s : SysState n}
    (hstart : ∀ i, init.phases i = Phase.start)
    (hcount : init.acquireCount = 0) (hclaim : init.claimants = [])
    (hstale : cachedTokenFresh init.accessToken now = false)
    (hfresh : cachedTokenFresh (some tok) now = true)
    (hreach : Relation.ReflTransGen (Step tok now) init s) : Inv tok init s := by
  induction hreach with
  | refl => exact inv_init hstart hcount hclaim
  | tail _ h2 ih => exact inv_preserved hstale hfresh h2 ih

/-- C1: starting from no cached (or a stale) token with `n` concurrent
callers, every reachable state has at most one refresher (and none when
the `refreshing` flag is clear); in any run in which all callers finish,
the acquisition operation was invoked exactly once, exactly one caller
ever set the `refreshing` flag, and every caller received the token
produced by that single acquisition. -/
theorem single_flight (n : Nat) (tok : AccessToken) (now : Int) (init s : SysState n)
    (hstart : ∀ i, init.phases i = Phase.start)
    (hrefl : init.refreshing = false)
    (hcount : init.acquireCount = 0)
    (hclaim : init.claimants = [])
    (hstale : cachedTokenFresh init.accessToken now = false)
    (hfresh : cachedTokenFresh (some tok) now = true)
    (hreach : Relation.ReflTransGen (Step tok now) init s) :
    (∀ i j, s.phases i = Phase.acquiring → s.phases j = Phase.acquiring → i = j) ∧
    (s.refreshing = false → ∀ i, s.phases i ≠ Phase.acquiring) ∧
    ((∀ i, ∃ t, s.phases i = Phase.done t) → 0 < n →
      s.acquireCount = 1 ∧ s.claimants.length = 1 ∧
      ∀ i, s.phases i = Phase.done tok.Token) := by
  have hinv := inv_reachable hstart hcount hclaim hstale hfresh hreach
  refine ⟨hinv.acq_unique, fun hrf i hi => ?_, fun hall hn => ?_⟩
  · rw [hinv.acq_refreshing i hi] at hrf; cases hrf
  · obtain ⟨t0, ht0⟩ := hall ⟨0, hn⟩
    have hdone := hinv.done_ok _ t0 ht0
    have hnoacq : ∀ j, s.phases j ≠ Phase.acquiring := by
      intro j hj
      obtain ⟨tj, htj⟩ := hall j
      rw [htj] at hj; cases hj
    refine ⟨hdone.2, ?_, fun i => ?_⟩
    · rw [hinv.claim_len_idle hnoacq, hdone.2]
    · obtain ⟨ti, hti⟩ := hall i
      rw [hti, (hinv.done_ok i ti hti).1]

/-- C1 witness: a concrete two-caller interleaving — caller 0 claims the
refresh, caller 1 waits, caller 0 finishes and broadcasts, caller 1 is
woken and reads the fresh token — ends with one acquisition, one flag
setter, and both callers holding `"T1"`. -/
theorem single_flight_witness :
    s4W.acquireCount = 1 ∧ s4W.claimants.length = 1 ∧
    (∀ i, s4W.phases i = Phase.done tokW.Token) ∧
    (∀ i j, s4W.phases i = Phase.acquiring → s4W.phases j = Phase.acquiring → i = j) := by
  have st1 : Step tokW 0 s0W s1W := Step.setFlag s0W 0 rfl rfl rfl
  have st2 : Step tokW 0 s1W s2W := Step.wait s1W 1 (by decide) rfl rfl
  have st3 : Step tokW 0 s2W s3W := Step.finishRefresh s2W 0 (by decide)
  have st4 : Step tokW 0 s3W s4W := Step.hitFresh s3W 1 tokW (by decide) rfl (by decide)
  have hchain : Relation.ReflTransGen (Step tokW 0) s0W s4W :=
    Relation.ReflTransGen.head st1 (Relation.ReflTransGen.head st2
      (Relation.ReflTransGen.head st3 (Relation.ReflTransGen.head st4
        Relation.ReflTransGen.refl)))
  have h := single_flight 2 tokW 0 s0W s4W (fun i => rfl) rfl rfl rfl rfl (by decide) hchain
  have hall : ∀ i : Fin 2, ∃ t, s4W.phases i = Phase.done t := by
    intro i
    fin_cases i
    · exact ⟨"T1", by decide⟩
    · exact ⟨"T1", by decide⟩
  obtain ⟨ha, hb, hc⟩ := h.2.2 hall (by decide)
  exact ⟨ha, hb, hc, h.1⟩

end TokenProvider
